import Mathlib

/-!
Shallow embedding of the AI-Powered Product Recommendation Engine frontend:
the App shell (filter pipeline, browsing-history push, get-recommendations
guard), the UserPreferences component (category/brand toggles), the
BrowsingHistory component (derived history entries, processing pipeline,
insights, favorite/remove handlers) and the Recommendations display
(confidence color and bar width).
-/

namespace RecEngine

/-- A catalog product as consumed by the frontend. -/
structure Product where
  id : Nat
  name : String
  brand : String
  category : String
  price : Rat
  rating : Rat
deriving Repr, DecidableEq

/-- The `userPreferences` state of the App component. -/
structure UserPreferences where
  priceRange : String
  categories : List String
  brands : List String
  minRating : Rat
deriving Repr, DecidableEq

/-- JS `a.includes(b)` on strings: `b` is a contiguous substring of `a`. -/
def strIncludes (s sub : String) : Bool :=
  decide (sub.toList <:+: s.toList)

/-- `matchesSearch` conjunct of the App filter effect. -/
def matchesSearch (searchQuery : String) (product : Product) : Bool :=
  searchQuery == "" ||
  strIncludes product.name.toLower searchQuery.toLower ||
  strIncludes product.category.toLower searchQuery.toLower ||
  strIncludes product.brand.toLower searchQuery.toLower

/-- `matchesCategory` conjunct of the App filter effect. -/
def matchesCategory (prefs : UserPreferences) (product : Product) : Bool :=
  prefs.categories.length == 0 || prefs.categories.contains product.category

/-- `matchesBrand` conjunct of the App filter effect. -/
def matchesBrand (prefs : UserPreferences) (product : Product) : Bool :=
  prefs.brands.length == 0 || prefs.brands.contains product.brand

/-- `matchesPrice` conjunct of the App filter effect (named price buckets). -/
def matchesPrice (prefs : UserPreferences) (product : Product) : Bool :=
  prefs.priceRange == "all" ||
  (prefs.priceRange == "0-50" && decide (product.price ≤ 50)) ||
  (prefs.priceRange == "50-100" && decide (product.price > 50) && decide (product.price ≤ 100)) ||
  (prefs.priceRange == "100+" && decide (product.price > 100))

/-- `matchesRating` conjunct of the App filter effect. -/
def matchesRating (prefs : UserPreferences) (product : Product) : Bool :=
  decide (product.rating ≥ prefs.minRating)

/-- The App filter effect: `products.filter(product => ...)`. -/
def filterProducts (products : List Product) (searchQuery : String)
    (prefs : UserPreferences) : List Product :=
  products.filter (fun product =>
    matchesSearch searchQuery product &&
    matchesCategory prefs product &&
    matchesBrand prefs product &&
    matchesPrice prefs product &&
    matchesRating prefs product)

/-- App `handleProductClick`:
`[productId, ...prev.filter(id => id !== productId)].slice(0, 20)`. -/
def handleProductClick (productId : Nat) (prev : List Nat) : List Nat :=
  ((productId :: prev.filter (fun id => id != productId)).take 20)

/-- UserPreferences `handleCategoryChange`: toggle membership of a category. -/
def handleCategoryChange (category : String) (prev : List String) : List String :=
  if prev.contains category then prev.filter (fun c => c != category)
  else prev ++ [category]

/-- UserPreferences `handleBrandChange`: toggle membership of a brand. -/
def handleBrandChange (brand : String) (prev : List String) : List String :=
  if prev.contains brand then prev.filter (fun b => b != brand)
  else prev ++ [brand]

/-- A transient App notification (`showNotification(message, type)`). -/
structure Notification where
  message : String
  severity : String
deriving Repr, DecidableEq

/-- One recommendation as rendered by the Recommendations component. -/
structure Recommendation where
  product : Product
  explanation : String
  confidence_score : Rat
deriving Repr, DecidableEq

/-- Observable outcome of one run of App `handleGetRecommendations`. -/
structure RecOutcome where
  networkCall : Bool
  notification : Option Notification
  recommendations : List Recommendation
deriving Repr, DecidableEq

/-- App `handleGetRecommendations`. `current` is the recommendation list held
before the call; `response` models the awaited network result, where `.ok`
carries `data.recommendations` (an absent field is `none`, defaulted by
`data.recommendations || []`). -/
def handleGetRecommendations (prefs : UserPreferences) (browsingHistory : List Nat)
    (current : List Recommendation)
    (response : Except String (Option (List Recommendation))) : RecOutcome :=
  if browsingHistory.length == 0 && prefs.categories.length == 0 then
    { networkCall := false
      notification := some { message := "Browse products or set preferences first.", severity := "warning" }
      recommendations := current }
  else
    match response with
    | .ok recs =>
        { networkCall := true
          notification := some { message := "Recommendations updated!", severity := "success" }
          recommendations := recs.getD [] }
    | .error _ =>
        { networkCall := true
          notification := some { message := "Failed to get recommendations.", severity := "error" }
          recommendations := current }

/-- A derived browsing-history entry (`{...product, viewedAt, isFavorite, viewCount}`). -/
structure HistoryEntry where
  id : Nat
  name : String
  brand : String
  category : String
  price : Rat
  rating : Rat
  viewedAt : Nat
  isFavorite : Bool
  viewCount : Nat
deriving Repr, DecidableEq

/-- Local state of the BrowsingHistory component (its own `useState` cells;
the `history` and `products` props are owned by the App and passed in). -/
structure HistoryState where
  viewMode : String
  sortBy : String
  filterBy : String
  searchQuery : String
  favorites : Finset Nat
  timestamps : List (Nat × Nat)
deriving DecidableEq

/-- Resolve one identifier of the raw history against the catalog, producing
the enriched entry (`history` is the full raw history used for `viewCount`;
`now` models the `Date.now()` fallback when no timestamp is recorded). -/
def historyEntryOf (now : Nat) (history : List Nat) (products : List Product)
    (s : HistoryState) (id : Nat) : Option HistoryEntry :=
  (products.find? (fun p => p.id == id)).map (fun product =>
    { id := product.id
      name := product.name
      brand := product.brand
      category := product.category
      price := product.price
      rating := product.rating
      viewedAt := (s.timestamps.lookup id).getD now
      isFavorite := decide (id ∈ s.favorites)
      viewCount := (history.filter (fun histId => histId == id)).length })

/-- BrowsingHistory `historyProducts`: map each identifier to its enriched
entry, silently dropping identifiers absent from the catalog. -/
def historyProducts (now : Nat) (history : List Nat) (products : List Product)
    (s : HistoryState) : List HistoryEntry :=
  history.filterMap (historyEntryOf now history products s)

/-- Model of `a.localeCompare(b)`: sign-valued string comparison. -/
def localeCompare (a b : String) : Rat :=
  if a < b then -1 else if b < a then 1 else 0

/-- The comparator of BrowsingHistory `processedProducts`' sort switch. -/
def historyCompare (sortBy : String) (a b : HistoryEntry) : Rat :=
  if sortBy == "recent" then (b.viewedAt : Rat) - (a.viewedAt : Rat)
  else if sortBy == "name" then localeCompare a.name b.name
  else if sortBy == "price" then a.price - b.price
  else if sortBy == "rating" then b.rating - a.rating
  else 0

/-- The sort stage of `processedProducts`; JS `Array.prototype.sort` is
stable, modelled by the stable `List.mergeSort` on the comparator's
non-positive relation. -/
def historySort (sortBy : String) (l : List HistoryEntry) : List HistoryEntry :=
  l.mergeSort (fun a b => decide (historyCompare sortBy a b ≤ 0))

/-- BrowsingHistory `processedProducts`: search filter, category/favorites
filter, then stable sort. -/
def processedProducts (entries : List HistoryEntry) (s : HistoryState) : List HistoryEntry :=
  let f1 :=
    if s.searchQuery != "" then
      entries.filter (fun p =>
        strIncludes p.name.toLower s.searchQuery.toLower ||
        strIncludes p.brand.toLower s.searchQuery.toLower ||
        strIncludes p.category.toLower s.searchQuery.toLower)
    else entries
  let f2 :=
    if s.filterBy != "all" then
      f1.filter (fun p => if s.filterBy == "favorites" then p.isFavorite else p.category == s.filterBy)
    else f1
  historySort s.sortBy f2

/-- One step of the JS tally `acc[k] = (acc[k] || 0) + 1` on a plain object,
modelled as an insertion-ordered association list. -/
def bump (acc : List (String × Nat)) (k : String) : List (String × Nat) :=
  if acc.any (fun kv => kv.1 == k) then
    acc.map (fun kv => if kv.1 == k then (kv.1, kv.2 + 1) else kv)
  else acc ++ [(k, 1)]

/-- `Object.entries` of the reduce-built tally, in insertion order. -/
def tally (l : List String) : List (String × Nat) :=
  l.foldl bump []

/-- `categoryCount` of the insights memo. -/
def categoryCount (ps : List HistoryEntry) : List (String × Nat) :=
  ps.foldl (fun acc p => bump acc p.category) []

/-- `brandCount` of the insights memo. -/
def brandCount (ps : List HistoryEntry) : List (String × Nat) :=
  ps.foldl (fun acc p => bump acc p.brand) []

/-- The reducer `(a, b) => a[1] > b[1] ? a : b` of the insights memo. -/
def pick (a b : String × Nat) : String × Nat :=
  if a.2 > b.2 then a else b

/-- JS `Array.prototype.reduce` with no initial value over `pick`
(`none` on the empty array, where JS would throw). -/
def reduceMaxEntry : List (String × Nat) → Option (String × Nat)
  | [] => none
  | e :: rest => some (rest.foldl pick e)

/-- The data content of the four insight strings (presentation formatting of
the two averages via `toFixed` is elided). -/
structure Insights where
  topCategory : String
  topBrand : String
  avgPrice : Rat
  avgRating : Rat
deriving Repr, DecidableEq

/-- BrowsingHistory `insights` memo: `[]` (here `none`) on an empty derived
list, otherwise the four derived summaries. -/
def insights (ps : List HistoryEntry) : Option Insights :=
  if ps.length == 0 then none
  else
    some
      { topCategory := ((reduceMaxEntry (categoryCount ps)).map Prod.fst).getD ""
        topBrand := ((reduceMaxEntry (brandCount ps)).map Prod.fst).getD ""
        avgPrice := (ps.foldl (fun sum p => sum + p.price) 0) / (ps.length : Rat)
        avgRating := (ps.foldl (fun sum p => sum + p.rating) 0) / (ps.length : Rat) }

/-- BrowsingHistory `handleRemoveItem`: deletes the identifier from the local
favorites set and touches nothing else. -/
def handleRemoveItem (productId : Nat) (s : HistoryState) : HistoryState :=
  { s with favorites := s.favorites.erase productId }

/-- Recommendations `getConfidenceColor`. -/
def getConfidenceColor (score : Rat) : String :=
  if score ≥ 8 then "#16a34a"
  else if score ≥ 5 then "#f59e0b"
  else "#ef4444"

/-- The inline style width of the confidence bar: `confidence_score * 10` percent. -/
def confidenceBarWidth (score : Rat) : Rat :=
  score * 10

/-- The numeric confidence text rendered next to the bar: the raw score. -/
def displayedConfidence (score : Rat) : Rat :=
  score

/-- Modelled from the spec: the clamp into `[0,10]` that the spec says is
applied to a confidence value before the bar width / color computation. -/
def specClamp (score : Rat) : Rat :=
  min 10 (max 0 score)

/-- Modelled from the spec: the bar width the spec describes, computed from
the clamped value. -/
def specClampedWidth (score : Rat) : Rat :=
  specClamp score * 10

/-- The single product of the spec's filter scenario:
`{id:1, price:30, category:'Shoes', brand:'X', rating:4}`. -/
def sampleShoe : Product :=
  { id := 1, name := "Shoe", brand := "X", category := "Shoes", price := 30, rating := 4 }

/-- Empty BrowsingHistory component state, as initialized on mount. -/
def sampleState : HistoryState :=
  { viewMode := "list", sortBy := "recent", filterBy := "all", searchQuery := ""
    favorites := ∅, timestamps := [] }

/-- The derived entry produced for `sampleShoe` after a single view. -/
def sampleEntry : HistoryEntry :=
  { id := 1, name := "Shoe", brand := "X", category := "Shoes", price := 30, rating := 4
    viewedAt := 0, isFavorite := false, viewCount := 1 }

/-- Fixture entry with category `A`. -/
def entryA1 : HistoryEntry :=
  { id := 2, name := "P1", brand := "Z", category := "A", price := 10, rating := 3
    viewedAt := 0, isFavorite := false, viewCount := 1 }

/-- Second fixture entry with category `A`. -/
def entryA2 : HistoryEntry :=
  { id := 3, name := "P2", brand := "Z", category := "A", price := 10, rating := 3
    viewedAt := 0, isFavorite := false, viewCount := 1 }

/-- Fixture entry with category `B`. -/
def entryB : HistoryEntry :=
  { id := 4, name := "P3", brand := "Z", category := "B", price := 10, rating := 3
    viewedAt := 0, isFavorite := false, viewCount := 1 }

/-! ## Theorems -/

theorem handleProductClick_eq (id : Nat) (h : List Nat) :
    handleProductClick id h = id :: (h.filter (fun x => x != id)).take 19 := by
  rw [handleProductClick, show (20 : Nat) = 19 + 1 from rfl, List.take_succ_cons]

theorem not_mem_filter_ne (h : List Nat) (id : Nat) :
    id ∉ h.filter (fun x => x != id) := by
  simp [List.mem_filter]

theorem filter_ne_of_not_mem {h : List Nat} {id : Nat} (hid : id ∉ h) :
    h.filter (fun x => x != id) = h := by
  apply List.filter_eq_self.mpr
  intro a ha
  rw [bne_iff_ne]
  rintro rfl
  exact hid ha

/-- C1: App `handleProductClick` on any current history: the clicked
identifier ends at position 0 and occurs exactly once (so pushing it twice in
succession changes nothing after the first push), and pushing a 21st distinct
identifier onto a 20-entry duplicate-free history keeps the length at 20 and
evicts the oldest (last) identifier. -/
theorem c1_history_push :
    (∀ (h : List Nat) (id : Nat),
        (handleProductClick id h).head? = some id ∧
        (handleProductClick id h).count id = 1) ∧
    (∀ (h : List Nat) (id : Nat),
        handleProductClick id (handleProductClick id h) = handleProductClick id h) ∧
    (∀ (h : List Nat) (id : Nat), h.length = 20 → h.Nodup → id ∉ h →
        (handleProductClick id h).length = 20 ∧
        ∀ hne : h ≠ [], h.getLast hne ∉ handleProductClick id h) := by
  refine ⟨?_, ?_, ?_⟩
  · intro h id
    rw [handleProductClick_eq]
    refine ⟨rfl, ?_⟩
    rw [List.count_cons_self, List.count_eq_zero.mpr]
    intro hmem
    exact not_mem_filter_ne h id (List.mem_of_mem_take hmem)
  · intro h id
    rw [handleProductClick_eq id h, handleProductClick]
    have h1 : (id :: (h.filter (fun x => x != id)).take 19).filter (fun x => x != id)
        = (h.filter (fun x => x != id)).take 19 := by
      rw [List.filter_cons]
      simp only [bne_self_eq_false, Bool.false_eq_true, if_false]
      apply List.filter_eq_self.mpr
      intro a ha
      exact (List.mem_filter.mp (List.mem_of_mem_take ha)).2
    rw [h1, show (20 : Nat) = 19 + 1 from rfl, List.take_succ_cons, List.take_take]
    simp
  · intro h id hlen hnd hid
    have hfe : h.filter (fun x => x != id) = h := filter_ne_of_not_mem hid
    have hpush : handleProductClick id h = id :: h.take 19 := by
      rw [handleProductClick_eq, hfe]
    constructor
    · rw [hpush]
      simp [List.length_take, hlen]
    · intro hne
      rw [hpush]
      have hdropne : h.drop 19 ≠ [] := by
        intro e
        have := congrArg List.length e
        simp [hlen] at this
      have hmemdrop : h.getLast hne ∈ h.drop 19 := by
        exact List.getLast_drop hdropne ▸ List.getLast_mem hdropne
      have hnd2 : (h.take 19 ++ h.drop 19).Nodup := by
        rw [List.take_append_drop]; exact hnd
      have hdisj := (List.nodup_append.mp hnd2).2.2
      intro hmem
      rcases List.mem_cons.mp hmem with e | htake
      · exact hid (e ▸ List.getLast_mem hne)
      · exact hdisj htake hmemdrop

/-- Witness for C1 at a concrete 20-entry duplicate-free history. -/
theorem c1_history_push_witness :
    (handleProductClick 100 (List.range 20)).length = 20 ∧
    (List.range 20).getLast (by decide) ∉ handleProductClick 100 (List.range 20) := by
  have h := c1_history_push.2.2 (List.range 20) 100 (by decide) (by decide) (by decide)
  exact ⟨h.1, h.2 (by decide)⟩

/-- C2: App `handleGetRecommendations`: with empty browsing history and empty
selected categories it performs no network call, leaves the recommendation
list unchanged and emits a warning notification; in every other state it
issues the request. -/
theorem c2_get_recommendations_guard :
    ∀ (prefs : UserPreferences) (history : List Nat) (current : List Recommendation)
      (response : Except String (Option (List Recommendation))),
      (history = [] ∧ prefs.categories = [] →
        handleGetRecommendations prefs history current response =
          { networkCall := false
            notification := some { message := "Browse products or set preferences first.",
                                   severity := "warning" }
            recommendations := current }) ∧
      (¬(history = [] ∧ prefs.categories = []) →
        (handleGetRecommendations prefs history current response).networkCall = true) := by
  intro prefs history current response
  constructor
  · rintro ⟨h1, h2⟩
    simp [handleGetRecommendations, h1, h2]
  · intro hne
    have hguard : ¬((history.length == 0 && prefs.categories.length == 0) = true) := by
      simp only [Bool.and_eq_true, beq_iff_eq, List.length_eq_zero]
      exact hne
    rw [handleGetRecommendations.eq_def, if_neg hguard]
    cases response <;> rfl

/-- Witness for C2: the empty/empty state warns without a network call, and a
state with a selected category issues the request. -/
theorem c2_get_recommendations_guard_witness :
    handleGetRecommendations ⟨"all", [], [], 0⟩ [] [] (.ok none) =
      { networkCall := false
        notification := some { message := "Browse products or set preferences first.",
                               severity := "warning" }
        recommendations := [] } ∧
    (handleGetRecommendations ⟨"all", ["Shoes"], [], 0⟩ [] [] (.ok none)).networkCall = true := by
  refine ⟨(c2_get_recommendations_guard _ _ _ _).1 ⟨rfl, rfl⟩,
          (c2_get_recommendations_guard _ _ _ _).2 ?_⟩
  simp

/-- C3: the filter pipeline with empty search text, no selected categories,
no selected brands, price range `all` and minimum rating 0 returns the
product list unchanged, in its original order (products carry a rating that
is non-negative, per the data model's 0–5 rating range). -/
theorem c3_filter_pipeline_identity :
    ∀ (P : List Product), (∀ p ∈ P, 0 ≤ p.rating) →
      filterProducts P ""
        { priceRange := "all", categories := [], brands := [], minRating := 0 } = P := by
  intro P hrat
  apply List.filter_eq_self.mpr
  intro p hp
  simp [matchesSearch, matchesCategory, matchesBrand, matchesPrice, matchesRating]
  exact hrat p hp

/-- Witness for C3 at the one-product catalog. -/
theorem c3_filter_pipeline_identity_witness :
    filterProducts [sampleShoe] ""
      { priceRange := "all", categories := [], brands := [], minRating := 0 } = [sampleShoe] :=
  c3_filter_pipeline_identity [sampleShoe] (by decide)

/-- C4: the `0-50` price bucket passes exactly the products with price ≤ 50
and the `50-100` bucket exactly those with 50 < price ≤ 100; consequently the
scenario product (price 30) survives the pipeline under `0-50` and is dropped
under `50-100`. -/
theorem c4_price_buckets :
    (∀ (prefs : UserPreferences) (p : Product), prefs.priceRange = "0-50" →
        matchesPrice prefs p = decide (p.price ≤ 50)) ∧
    (∀ (prefs : UserPreferences) (p : Product), prefs.priceRange = "50-100" →
        matchesPrice prefs p = decide (50 < p.price ∧ p.price ≤ 100)) ∧
    filterProducts [sampleShoe] ""
      { priceRange := "0-50", categories := [], brands := [], minRating := 0 } = [sampleShoe] ∧
    filterProducts [sampleShoe] ""
      { priceRange := "50-100", categories := [], brands := [], minRating := 0 } = [] := by
  refine ⟨?_, ?_, by decide, by decide⟩
  · intro prefs p hpr
    simp [matchesPrice, hpr]
  · intro prefs p hpr
    simp [matchesPrice, hpr]

/-- Witness for C4's bucket characterizations at the scenario product. -/
theorem c4_price_buckets_witness :
    matchesPrice { priceRange := "0-50", categories := [], brands := [], minRating := 0 }
        sampleShoe = decide (sampleShoe.price ≤ 50) ∧
    matchesPrice { priceRange := "50-100", categories := [], brands := [], minRating := 0 }
        sampleShoe = decide (50 < sampleShoe.price ∧ sampleShoe.price ≤ 100) :=
  ⟨c4_price_buckets.1 _ _ rfl, c4_price_buckets.2.1 _ _ rfl⟩

/-- C5: the category toggle is an involution up to set equality: toggling the
same category twice yields a selection with exactly the same members. -/
theorem c5_category_toggle_involution :
    ∀ (S : List String) (c x : String),
      x ∈ handleCategoryChange c (handleCategoryChange c S) ↔ x ∈ S := by
  intro S c x
  by_cases hc : c ∈ S
  · have h1 : handleCategoryChange c S = S.filter (fun b => b != c) := by
      rw [handleCategoryChange, if_pos (by simpa using hc)]
    have h2 : c ∉ S.filter (fun b => b != c) := by simp [List.mem_filter]
    rw [h1, handleCategoryChange, if_neg (by simp)]
    simp only [List.mem_append, List.mem_filter, List.mem_singleton, bne_iff_ne]
    constructor
    · rintro (⟨hxS, _⟩ | rfl)
      · exact hxS
      · exact hc
    · intro hxS
      by_cases hx : x = c
      · exact Or.inr hx
      · exact Or.inl ⟨hxS, hx⟩
  · have h1 : handleCategoryChange c S = S ++ [c] := by
      rw [handleCategoryChange, if_neg (by simpa using hc)]
    have h2 : c ∈ S ++ [c] := by simp
    rw [h1, handleCategoryChange, if_pos (by simp), List.filter_append]
    have h3 : [c].filter (fun b => b != c) = [] := by simp
    have h4 : S.filter (fun b => b != c) = S := by
      apply List.filter_eq_self.mpr
      intro a ha
      rw [bne_iff_ne]
      rintro rfl
      exact hc ha
    rw [h3, h4, List.append_nil]

theorem historyProducts_map_id_aux (now : Nat) (H : List Nat) (products : List Product)
    (s : HistoryState) (h : List Nat) :
    (h.filterMap (historyEntryOf now H products s)).map (fun e => e.id) =
      h.filter (fun i => (products.find? (fun p => p.id == i)).isSome) := by
  induction h with
  | nil => rfl
  | cons a t ih =>
    rw [List.filterMap_cons, List.filter_cons]
    cases hfind : products.find? (fun p => p.id == a) with
    | none =>
      have he : historyEntryOf now H products s a = none := by
        rw [historyEntryOf, hfind]
        rfl
      rw [he]
      simp only [hfind, Option.isSome_none, Bool.false_eq_true, if_false]
      exact ih
    | some p =>
      have hpid : p.id = a := by
        have := List.find?_some hfind
        simpa using this
      have he : historyEntryOf now H products s a = some
          { id := p.id, name := p.name, brand := p.brand, category := p.category
            price := p.price, rating := p.rating
            viewedAt := (s.timestamps.lookup a).getD now
            isFavorite := decide (a ∈ s.favorites)
            viewCount := (H.filter (fun histId => histId == a)).length } := by
        rw [historyEntryOf, hfind]
        rfl
      rw [he]
      simp only [hfind, Option.isSome_some, if_true, List.map_cons]
      rw [ih, hpid]

/-- C9: BrowsingHistory `handleRemoveItem` only deletes the identifier from
the local favorites set: every other piece of component state is unchanged,
the identifier projection of the derived history list is unchanged, and a
removed identifier that resolves against the catalog still appears in the
derived list. -/
theorem c9_remove_only_clears_favorite :
    ∀ (s : HistoryState) (productId : Nat),
      (handleRemoveItem productId s).favorites = s.favorites.erase productId ∧
      (handleRemoveItem productId s).viewMode = s.viewMode ∧
      (handleRemoveItem productId s).sortBy = s.sortBy ∧
      (handleRemoveItem productId s).filterBy = s.filterBy ∧
      (handleRemoveItem productId s).searchQuery = s.searchQuery ∧
      (handleRemoveItem productId s).timestamps = s.timestamps ∧
      (∀ (now : Nat) (history : List Nat) (products : List Product),
        (historyProducts now history products (handleRemoveItem productId s)).map
            (fun e => e.id) =
          (historyProducts now history products s).map (fun e => e.id)) ∧
      (∀ (now : Nat) (history : List Nat) (products : List Product),
        productId ∈ history →
        (products.find? (fun p => p.id == productId)).isSome = true →
        ∃ e ∈ historyProducts now history products (handleRemoveItem productId s),
          e.id = productId) := by
  intro s productId
  refine ⟨rfl, rfl, rfl, rfl, rfl, rfl, ?_, ?_⟩
  · intro now history products
    rw [historyProducts, historyProducts, historyProducts_map_id_aux,
        historyProducts_map_id_aux]
  · intro now history products hmem hsome
    have hin : productId ∈ (historyProducts now history products
        (handleRemoveItem productId s)).map (fun e => e.id) := by
      rw [historyProducts, historyProducts_map_id_aux, List.mem_filter]
      exact ⟨hmem, hsome⟩
    rcases List.mem_map.mp hin with ⟨e, heMem, heId⟩
    exact ⟨e, heMem, heId⟩

/-- Witness for C9: removing identifier 1 from a state that has it as a
favorite still leaves its entry in the derived history list. -/
theorem c9_remove_only_clears_favorite_witness :
    1 ∈ (historyProducts 0 [1] [sampleShoe]
        (handleRemoveItem 1
          { viewMode := "list", sortBy := "recent", filterBy := "all", searchQuery := ""
            favorites := {1}, timestamps := [] })).map HistoryEntry.id := by
  obtain ⟨e, hmem, hid⟩ :=
    (c9_remove_only_clears_favorite
        { viewMode := "list", sortBy := "recent", filterBy := "all", searchQuery := ""
          favorites := {1}, timestamps := [] } 1).2.2.2.2.2.2.2
      0 [1] [sampleShoe] (by decide) (by decide)
  exact List.mem_map.mpr ⟨e, hmem, hid⟩

/-- C10: the click handler preserves freedom from duplicates, and on any
duplicate-free raw history every derived entry's `viewCount` equals 1. -/
theorem c10_viewcount_one :
    (∀ (h : List Nat) (id : Nat), h.Nodup → (handleProductClick id h).Nodup) ∧
    (∀ (now : Nat) (history : List Nat) (products : List Product) (s : HistoryState),
      history.Nodup →
      ∀ e ∈ historyProducts now history products s, e.viewCount = 1) := by
  constructor
  · intro h id hnd
    rw [handleProductClick]
    apply List.Sublist.nodup (List.take_sublist _ _)
    exact List.nodup_cons.mpr ⟨not_mem_filter_ne h id, hnd.filter _⟩
  · intro now history products s hnd e he
    rcases List.mem_filterMap.mp he with ⟨i, hiMem, hif⟩
    rw [historyEntryOf] at hif
    rcases Option.map_eq_some'.mp hif with ⟨p, _, hep⟩
    have hvc : e.viewCount = (history.filter (fun histId => histId == i)).length := by
      rw [← hep]
    rw [hvc, ← List.countP_eq_length_filter]
    exact List.count_eq_one_of_mem hnd hiMem

/-- Witness for C10: the single-view history `[1]` yields the sample entry
with `viewCount = 1`. -/
theorem c10_viewcount_one_witness :
    sampleEntry ∈ historyProducts 0 [1] [sampleShoe] sampleState ∧
    sampleEntry.viewCount = 1 :=
  ⟨by decide, c10_viewcount_one.2 0 [1] [sampleShoe] sampleState (by decide)
      sampleEntry (by decide)⟩

theorem historyCompare_name (a b : HistoryEntry) :
    historyCompare "name" a b = localeCompare a.name b.name := by
  rfl

theorem localeCompare_nonpos_iff (a b : String) : localeCompare a b ≤ 0 ↔ a ≤ b := by
  rw [localeCompare]
  rcases lt_trichotomy a b with h | h | h
  · simp only [if_pos h]
    constructor
    · intro _
      exact le_of_lt h
    · intro _
      norm_num
  · subst h
    rw [if_neg (lt_irrefl a), if_neg (lt_irrefl a)]
    simp
  · rw [if_neg (asymm h), if_pos h]
    constructor
    · intro h1
      norm_num at h1
    · intro hab
      exact absurd hab (not_le.mpr h)

/-- C7: the sort-by-name stage of `processedProducts` is stable: entries with
equal names keep their relative input order (the filtered subsequence of
entries with any fixed name is unchanged by the sort). -/
theorem c7_sort_by_name_stable :
    ∀ (l : List HistoryEntry) (n : String),
      (historySort "name" l).filter (fun e => e.name == n) =
        l.filter (fun e => e.name == n) := by
  intro l n
  rw [historySort]
  set le := fun a b : HistoryEntry => decide (historyCompare "name" a b ≤ 0) with hle
  have hle_iff : ∀ a b : HistoryEntry, le a b = true ↔ a.name ≤ b.name := by
    intro a b
    rw [hle]
    simp only [decide_eq_true_eq]
    rw [historyCompare_name]
    exact localeCompare_nonpos_iff _ _
  have htrans : ∀ a b c : HistoryEntry, le a b → le b c → le a c := by
    intro a b c hab hbc
    rw [hle_iff] at hab hbc ⊢
    exact le_trans hab hbc
  have htotal : ∀ a b : HistoryEntry, le a b || le b a := by
    intro a b
    rcases le_total a.name b.name with h | h
    · have h2 := (hle_iff a b).mpr h
      simp [h2]
    · have h2 := (hle_iff b a).mpr h
      simp [h2]
  set p := fun e : HistoryEntry => e.name == n with hp
  have hnames : ∀ e ∈ l.filter p, e.name = n := by
    intro e he
    have h2 := (List.mem_filter.mp he).2
    rw [hp] at h2
    exact eq_of_beq h2
  have hpair : (l.filter p).Pairwise (fun a b => le a b) := by
    apply List.pairwise_of_forall_mem_list
    intro a ha b hb
    rw [hle_iff, hnames a ha, hnames b hb]
  have hself : (l.filter p).filter p = l.filter p := by
    rw [List.filter_filter]
    apply List.filter_congr
    intro a _
    exact Bool.and_self _
  have h1 : List.Sublist (l.filter p) (l.mergeSort le) :=
    List.sublist_mergeSort htrans htotal hpair (List.filter_sublist l)
  have h2 : List.Sublist ((l.filter p).filter p) ((l.mergeSort le).filter p) := h1.filter p
  rw [hself] at h2
  have h3 : List.Perm ((l.mergeSort le).filter p) (l.filter p) :=
    (List.mergeSort_perm l le).filter p
  exact (h2.eq_of_length h3.length_eq.symm).symm

theorem tally_concat (l : List String) (k : String) :
    tally (l ++ [k]) = bump (tally l) k := by
  rw [tally, tally, List.foldl_append]
  rfl

theorem foldl_pick_mem : ∀ (rest : List (String × Nat)) (a : String × Nat),
    rest.foldl pick a ∈ a :: rest := by
  intro rest
  induction rest with
  | nil =>
    intro a
    exact List.mem_singleton.mpr rfl
  | cons b t ih =>
    intro a
    rw [List.foldl_cons]
    rcases List.mem_cons.mp (ih (pick a b)) with he | ht
    · rw [he, pick]
      split
      · exact List.mem_cons_self _ _
      · exact List.mem_cons_of_mem _ (List.mem_cons_self _ _)
    · exact List.mem_cons_of_mem _ (List.mem_cons_of_mem _ ht)

theorem foldl_pick_max : ∀ (rest : List (String × Nat)) (a x : String × Nat),
    x ∈ a :: rest → x.2 ≤ (rest.foldl pick a).2 := by
  intro rest
  induction rest with
  | nil =>
    intro a x hx
    rw [List.mem_singleton] at hx
    rw [hx]
    exact le_refl _
  | cons b t ih =>
    intro a x hx
    rw [List.foldl_cons]
    have hab : a.2 ≤ (pick a b).2 := by
      rw [pick]
      split
      · exact le_refl _
      · next hgt => exact Nat.le_of_not_lt hgt
    have hbb : b.2 ≤ (pick a b).2 := by
      rw [pick]
      split
      · next hgt => exact Nat.le_of_lt hgt
      · exact le_refl _
    rcases List.mem_cons.mp hx with he | hx2
    · calc x.2 = a.2 := by rw [he]
        _ ≤ (pick a b).2 := hab
        _ ≤ (t.foldl pick (pick a b)).2 := ih (pick a b) _ (List.mem_cons_self _ _)
    · rcases List.mem_cons.mp hx2 with he2 | ht
      · calc x.2 = b.2 := by rw [he2]
          _ ≤ (pick a b).2 := hbb
          _ ≤ (t.foldl pick (pick a b)).2 := ih (pick a b) _ (List.mem_cons_self _ _)
      · exact ih (pick a b) x (List.mem_cons_of_mem _ ht)

theorem reduceMaxEntry_spec (t : List (String × Nat)) (hne : t ≠ []) :
    ∃ e, reduceMaxEntry t = some e ∧ e ∈ t ∧ ∀ b ∈ t, b.2 ≤ e.2 := by
  cases t with
  | nil => exact absurd rfl hne
  | cons a rest =>
    exact ⟨rest.foldl pick a, rfl, foldl_pick_mem rest a,
      fun b hb => foldl_pick_max rest a b hb⟩

theorem tally_inv (l : List String) :
    (∀ kv ∈ tally l, kv.2 = l.count kv.1) ∧
    (∀ k, k ∈ l ↔ ∃ m, (k, m) ∈ tally l) := by
  induction l using List.reverseRecOn with
  | nil =>
    constructor
    · intro kv hkv
      simp [tally] at hkv
    · intro k
      simp [tally]
  | append_singleton l k ih =>
    rcases ih with ⟨ihc, ihm⟩
    rw [tally_concat, bump]
    by_cases hany : (tally l).any (fun kv => kv.1 == k) = true
    · rw [if_pos hany]
      constructor
      · intro kv' hkv'
        rcases List.mem_map.mp hkv' with ⟨kv, hkv, hupd⟩
        by_cases hk : kv.1 = k
        · rw [if_pos (beq_iff_eq.mpr hk)] at hupd
          rw [← hupd]
          show kv.2 + 1 = (l ++ [k]).count kv.1
          rw [hk, List.count_append, List.count_singleton_self, ihc kv hkv, hk]
        · rw [if_neg (by simp [hk])] at hupd
          rw [← hupd]
          show kv.2 = (l ++ [k]).count kv.1
          rw [List.count_append, List.count_singleton,
              if_neg (fun hbe => hk (eq_of_beq hbe).symm), Nat.add_zero]
          exact ihc kv hkv
      · intro k'
        rw [List.mem_append, List.mem_singleton]
        constructor
        · rintro (hl | rfl)
          · rcases (ihm k').mp hl with ⟨m, hm⟩
            by_cases hk : k' = k
            · refine ⟨m + 1, List.mem_map.mpr ⟨(k', m), hm, ?_⟩⟩
              rw [if_pos (beq_iff_eq.mpr hk)]
            · refine ⟨m, List.mem_map.mpr ⟨(k', m), hm, ?_⟩⟩
              rw [if_neg (by simp [hk])]
          · rcases List.any_eq_true.mp hany with ⟨kv, hkv, hbeq⟩
            refine ⟨kv.2 + 1, List.mem_map.mpr ⟨kv, hkv, ?_⟩⟩
            rw [if_pos hbeq, eq_of_beq hbeq]
        · rintro ⟨m, hm⟩
          rcases List.mem_map.mp hm with ⟨kv, hkv, hupd⟩
          have hfst : kv.1 = k' := by
            by_cases hk : (kv.1 == k) = true
            · rw [if_pos hk] at hupd
              exact congrArg Prod.fst hupd
            · rw [if_neg hk] at hupd
              exact congrArg Prod.fst hupd
          exact Or.inl (hfst ▸ (ihm kv.1).mpr ⟨kv.2, hkv⟩)
    · rw [if_neg hany]
      have hknot : k ∉ l := by
        intro hk
        rcases (ihm k).mp hk with ⟨m, hm⟩
        exact hany (List.any_eq_true.mpr ⟨(k, m), hm, by simp⟩)
      constructor
      · intro kv' hkv'
        rcases List.mem_append.mp hkv' with hold | hnew
        · have hin : kv'.1 ∈ l := (ihm kv'.1).mpr ⟨kv'.2, hold⟩
          have hne2 : kv'.1 ≠ k := fun he => hknot (he ▸ hin)
          rw [List.count_append, List.count_singleton,
              if_neg (fun hbe => hne2 (eq_of_beq hbe).symm), Nat.add_zero]
          exact ihc kv' hold
        · rw [List.mem_singleton] at hnew
          rw [hnew]
          show (1 : Nat) = (l ++ [k]).count k
          rw [List.count_append, List.count_singleton_self,
              List.count_eq_zero.mpr hknot]
      · intro k'
        rw [List.mem_append, List.mem_singleton]
        constructor
        · rintro (hl | rfl)
          · rcases (ihm k').mp hl with ⟨m, hm⟩
            exact ⟨m, List.mem_append.mpr (Or.inl hm)⟩
          · exact ⟨1, List.mem_append.mpr (Or.inr (List.mem_singleton.mpr rfl))⟩
        · rintro ⟨m, hm⟩
          rcases List.mem_append.mp hm with h1 | h2
          · exact Or.inl ((ihm k').mpr ⟨m, h1⟩)
          · rw [List.mem_singleton] at h2
            exact Or.inr (congrArg Prod.fst h2)

theorem categoryCount_eq_tally (ps : List HistoryEntry) :
    categoryCount ps = tally (ps.map (fun p => p.category)) := by
  rw [categoryCount, tally, List.foldl_map]

/-- C6 counterexample: for two entries of categories `[A, B]` both categories
have maximal (tied) occurrence count 1 and `A` is first-encountered, yet the
insights derivation reports `B` as most viewed category, so ties are not
broken in favour of the first-encountered category. -/
theorem c6_counterexample :
    ([entryA1, entryB].map (fun p => p.category)) = ["A", "B"] ∧
    ([entryA1, entryB].map (fun p => p.category)).count "A" =
      ([entryA1, entryB].map (fun p => p.category)).count "B" ∧
    (insights [entryA1, entryB]).map (fun i => i.topCategory) = some "B" := by
  refine ⟨rfl, rfl, ?_⟩
  decide

/-- C6 (amended): for every non-empty derived history list the insights
derivation reports a most-viewed category that occurs in the list and has
maximal occurrence count, but ties between equal counts are broken in favour
of a later-encountered category rather than the first (see the
counterexample); in particular for categories `[A, A, B]` it reports `A`, and
for an empty derived list no insights are produced. -/
theorem c6_top_category :
    (∀ ps : List HistoryEntry, insights ps = none ↔ ps = []) ∧
    (∀ ps : List HistoryEntry, ps ≠ [] →
      ∃ ins, insights ps = some ins ∧
        ins.topCategory ∈ ps.map (fun p => p.category) ∧
        ∀ c ∈ ps.map (fun p => p.category),
          (ps.map (fun p => p.category)).count c ≤
            (ps.map (fun p => p.category)).count ins.topCategory) ∧
    (insights [entryA1, entryA2, entryB]).map (fun i => i.topCategory) = some "A" := by
  refine ⟨?_, ?_, by decide⟩
  · intro ps
    cases ps with
    | nil => simp [insights]
    | cons a t => simp [insights]
  · intro ps hne
    have hcond : ¬((ps.length == 0) = true) := by
      cases ps with
      | nil => exact absurd rfl hne
      | cons a t => simp
    rw [insights, if_neg hcond]
    refine ⟨_, rfl, ?_⟩
    have hmapne : ∃ c, c ∈ ps.map (fun p => p.category) := by
      cases ps with
      | nil => exact absurd rfl hne
      | cons a t => exact ⟨a.category, List.mem_map.mpr ⟨a, List.mem_cons_self a t, rfl⟩⟩
    have htne : tally (ps.map (fun p => p.category)) ≠ [] := by
      intro h0
      rcases hmapne with ⟨c, hc⟩
      rcases ((tally_inv _).2 c).mp hc with ⟨m, hm⟩
      rw [h0] at hm
      exact absurd hm (List.not_mem_nil _)
    rcases reduceMaxEntry_spec _ htne with ⟨e, hred, hmem, hmax⟩
    dsimp only
    rw [categoryCount_eq_tally, hred]
    simp only [Option.map_some', Option.getD_some]
    constructor
    · exact ((tally_inv _).2 e.1).mpr ⟨e.2, hmem⟩
    · intro c hc
      rcases ((tally_inv _).2 c).mp hc with ⟨m, hm⟩
      have hcm : m = (ps.map (fun p => p.category)).count c := by
        have h2 := (tally_inv _).1 (c, m) hm
        simpa using h2
      have he2 : e.2 = (ps.map (fun p => p.category)).count e.1 :=
        (tally_inv _).1 e hmem
      have hle : m ≤ e.2 := hmax (c, m) hm
      rw [← hcm, ← he2]
      exact hle

/-- Witness for C6 (amended) at the singleton derived list `[entryB]`: the
reported most-viewed category is the one category present. -/
theorem c6_top_category_witness :
    (insights [entryB]).map Insights.topCategory = some "B" := by
  obtain ⟨ins, h1, h2, _⟩ := c6_top_category.2.1 [entryB] (by decide)
  have hB : ins.topCategory = "B" := by
    have h3 := h2
    simp only [List.map_cons, List.map_nil] at h3
    exact List.mem_singleton.mp h3
  rw [h1, Option.map_some', hB]

/-- C8 counterexample: at confidence 15 the rendered bar width is 150 percent
(raw score × 10), not the 100 percent a clamped-into-[0,10] computation would
give, so the width is not computed from a clamped value. -/
theorem c8_counterexample :
    confidenceBarWidth 15 = 150 ∧ specClampedWidth 15 = 100 ∧ (150 : Rat) ≠ 100 := by
  refine ⟨by norm_num [confidenceBarWidth], ?_, by norm_num⟩
  rw [specClampedWidth, specClamp]
  norm_num

/-- C8 (amended): the color mapping applied to the raw score coincides with
the one applied to the clamped score (green iff ≥ 8, yellow iff 5 ≤ · < 8,
red otherwise), but the progress-bar width is raw score × 10 percent and
agrees with the clamped computation exactly when the score already lies in
[0,10]; the displayed numeric text shows the raw score. -/
theorem c8_confidence_rendering :
    ∀ score : Rat,
      getConfidenceColor (specClamp score) = getConfidenceColor score ∧
      (confidenceBarWidth score = specClampedWidth score ↔ 0 ≤ score ∧ score ≤ 10) ∧
      displayedConfidence score = score := by
  intro s
  refine ⟨?_, ?_, rfl⟩
  · rw [getConfidenceColor, getConfidenceColor, specClamp]
    rcases le_or_lt 8 s with h8 | h8
    · have hc : (8 : Rat) ≤ min 10 (max 0 s) :=
        le_min (by norm_num) (le_max_of_le_right h8)
      rw [if_pos hc, if_pos h8]
    · rcases le_or_lt 5 s with h5 | h5
      · have hc : min 10 (max 0 s) = s := by
          rw [max_eq_right (by linarith), min_eq_right (by linarith)]
        rw [hc]
      · have h1 : min 10 (max 0 s) < 5 :=
          lt_of_le_of_lt (min_le_right _ _) (max_lt (by norm_num) h5)
        rw [if_neg (by intro hcon; rw [ge_iff_le] at hcon; linarith),
            if_neg (by intro hcon; rw [ge_iff_le] at hcon; linarith),
            if_neg (by intro hcon; rw [ge_iff_le] at hcon; linarith),
            if_neg (by intro hcon; rw [ge_iff_le] at hcon; linarith)]
  · rw [confidenceBarWidth, specClampedWidth, specClamp]
    constructor
    · intro he
      have hs : s = min 10 (max 0 s) := mul_right_cancel₀ (by norm_num) he
      constructor
      · rw [hs]
        exact le_min (by norm_num) (le_max_left 0 s)
      · rw [hs]
        exact min_le_left _ _
    · rintro ⟨h0, h10⟩
      rw [max_eq_right h0, min_eq_right h10]

end RecEngine
